import Mathlib

/-
Verification of the discovery/validation/execution engine of the testpy/testrs
repository (src/testpy/discovery.py, src/testpy/validator.py,
src/testrs/runner.py) against its natural-language specification.

Modelling conventions:
* Python strings are Lean `String`s; all operations are implemented over the
  underlying `List Char` (code points), matching Python's code-point semantics.
* Filesystem paths are lists of components (`Path := List String`), relative
  to the filesystem root.  A filesystem is a list of file paths, a list of
  directory paths, and a read function (`none` models a raised exception).
* `sorted(...)` (Python's stable sort) is modelled by a stable insertion sort,
  which is extensionally the same function as any stable sort by the same key.
* `subprocess.run` is modelled by an environment function mapping the final
  command and the optional library-level timeout to an outcome.
* Floating point durations are modelled by exact rationals; the two models
  agree on every comparison performed here.
-/

namespace TestPy

/-! ## String utilities (Python code-point semantics) -/

/-- Python `s.startswith(p)`. -/
def pyStartsWith (s p : String) : Bool := List.isPrefixOf p.data s.data

/-- Python `s.endswith(p)`. -/
def pyEndsWith (s p : String) : Bool := List.isSuffixOf p.data s.data

/-- Python `s[:-n]` for `n ≤ len(s)`. -/
def strDropRight (s : String) (n : Nat) : String := ⟨s.data.take (s.data.length - n)⟩

/-- Python `s[n:]`. -/
def strDrop (s : String) (n : Nat) : String := ⟨s.data.drop n⟩

/-- Python `len(s)` (code points). -/
def strLen (s : String) : Nat := s.data.length

/-- Index of the last occurrence of a character, if any. -/
def lastIdxOf (c : Char) : List Char → Option Nat
  | [] => none
  | x :: xs =>
    match lastIdxOf c xs with
    | some i => some (i + 1)
    | none => if x = c then some 0 else none

/-- Python `pathlib.PurePath.stem`: the file name without its last suffix.
The suffix is the part after the last dot, provided that dot is neither the
first nor the last character of the name. -/
def stemOf (name : String) : String :=
  match lastIdxOf '.' name.data with
  | some i => if 0 < i ∧ i < name.data.length - 1 then ⟨name.data.take i⟩ else name
  | none => name

/-- Split at the first occurrence of a character: Python `s.split(c, 1)` when
it produces two parts (`none` when the character is absent). -/
def splitFirstAt (c : Char) : List Char → Option (List Char × List Char)
  | [] => none
  | x :: xs =>
    if x = c then some ([], xs)
    else (splitFirstAt c xs).map (fun ab => (x :: ab.1, ab.2))

/-- Python `s.split("_", 1)` restricted to the two-part case. -/
def pySplitFirstUnd (s : String) : Option (String × String) :=
  (splitFirstAt '_' s.data).map (fun ab => (⟨ab.1⟩, ⟨ab.2⟩))

/-- Sublist (contiguous) containment over characters. -/
def subListOf : List Char → List Char → Bool
  | n, [] => n.isEmpty
  | n, h :: hs => List.isPrefixOf n (h :: hs) || subListOf n hs

/-- Python `pat in s` (substring containment). -/
def strContains (s pat : String) : Bool := subListOf pat.data s.data

/-- Characters removed by Python `str.strip()`. -/
def isPySpace (c : Char) : Bool :=
  c = ' ' || c = '\t' || c = '\n' || c = '\r' || c = '\x0b' || c = '\x0c'

/-- Python `s.strip()`. -/
def pyStrip (s : String) : String :=
  ⟨((s.data.dropWhile isPySpace).reverse.dropWhile isPySpace).reverse⟩

/-- Split on every occurrence of a character, keeping empty fields:
Python `s.split(c)` for a one-character separator. -/
def splitChar (c : Char) : List Char → List (List Char)
  | [] => [[]]
  | x :: xs =>
    if x = c then [] :: splitChar c xs
    else
      match splitChar c xs with
      | g :: gs => (x :: g) :: gs
      | [] => [[x]]

/-- Python `s.split(sep)` for a one-character separator, as strings. -/
def pySplitChar (c : Char) (s : String) : List String :=
  (splitChar c s.data).map (fun g => ⟨g⟩)

/-- Code-point comparison, strict. -/
def charLT (a b : Char) : Bool := decide (a.toNat < b.toNat)

/-- Lexicographic code-point comparison on character lists (Python `<=`). -/
def charListLE : List Char → List Char → Bool
  | [], _ => true
  | _ :: _, [] => false
  | a :: as, b :: bs =>
    if charLT a b then true else if charLT b a then false else charListLE as bs

/-- Python string `<=` (lexicographic by code point). -/
def strLE (s t : String) : Bool := charListLE s.data t.data

theorem charListLE_total : ∀ a b, (charListLE a b || charListLE b a) = true := by
  intro a
  induction a with
  | nil => intro b; simp [charListLE]
  | cons x xs ih =>
    intro b
    cases b with
    | nil => simp [charListLE]
    | cons y ys =>
      simp only [charListLE, charLT, decide_eq_true_eq]
      by_cases h1 : x.toNat < y.toNat
      · simp [h1]
      · by_cases h2 : y.toNat < x.toNat
        · simp [h1, h2]
        · simp [h1, h2, ih ys]

theorem charListLE_cons (x y : Char) (xs ys : List Char) :
    charListLE (x :: xs) (y :: ys) =
      if x.toNat < y.toNat then true
      else if y.toNat < x.toNat then false
      else charListLE xs ys := by
  simp [charListLE, charLT]

theorem charListLE_trans :
    ∀ a b c, charListLE a b = true → charListLE b c = true → charListLE a c = true := by
  intro a
  induction a with
  | nil => intro b c _ _; simp [charListLE]
  | cons x xs ih =>
    intro b c hab hbc
    cases b with
    | nil => simp [charListLE] at hab
    | cons y ys =>
      cases c with
      | nil => simp [charListLE] at hbc
      | cons z zs =>
        rw [charListLE_cons] at hab hbc ⊢
        split_ifs at hab hbc ⊢ with h1 h2 h3 h4 h5 h6 <;>
          first
            | rfl
            | omega
            | exact ih ys zs hab hbc

theorem strLE_total : ∀ a b : String, (strLE a b || strLE b a) = true := by
  intro a b; exact charListLE_total a.data b.data

theorem strLE_trans :
    ∀ a b c : String, strLE a b = true → strLE b c = true → strLE a c = true := by
  intro a b c; exact charListLE_trans a.data b.data c.data

/-! ## Stable sort (model of Python `sorted`) -/

/-- Insert after all elements that compare `le` against the new element:
the insertion position of a stable sort. -/
def insertLE (le : α → α → Bool) (a : α) : List α → List α
  | [] => [a]
  | b :: bs => if le b a then b :: insertLE le a bs else a :: b :: bs

/-- Stable insertion sort; extensionally equal to Python's stable `sorted`
with comparison `le`. -/
def sortBy (le : α → α → Bool) (l : List α) : List α :=
  l.foldl (fun acc a => insertLE le a acc) []

theorem insertLE_perm (le : α → α → Bool) (a : α) :
    ∀ l : List α, List.Perm (insertLE le a l) (a :: l) := by
  intro l
  induction l with
  | nil => simp [insertLE]
  | cons b bs ih =>
    simp only [insertLE]
    by_cases h : le b a = true
    · rw [if_pos h]
      exact List.Perm.trans (List.Perm.cons b ih) (List.Perm.swap a b bs)
    · rw [if_neg h]

theorem sortBy_perm (le : α → α → Bool) (l : List α) :
    List.Perm (sortBy le l) l := by
  suffices h : ∀ (l : List α) (acc : List α),
      List.Perm (l.foldl (fun acc a => insertLE le a acc) acc) (acc ++ l) by
    simpa using h l []
  intro l
  induction l with
  | nil => intro acc; simp
  | cons a as ih =>
    intro acc
    simp only [List.foldl_cons]
    have h1 := ih (insertLE le a acc)
    have h2 : List.Perm (insertLE le a acc ++ as) (acc ++ a :: as) := by
      have := List.Perm.append_right as (insertLE_perm le a acc)
      refine this.trans ?_
      exact (List.perm_middle).symm
    exact h1.trans h2

theorem mem_sortBy {le : α → α → Bool} {l : List α} {a : α} :
    a ∈ sortBy le l ↔ a ∈ l := (sortBy_perm le l).mem_iff

theorem insertLE_sorted (le : α → α → Bool)
    (trans : ∀ a b c, le a b = true → le b c = true → le a c = true)
    (total : ∀ a b, (le a b || le b a) = true) (a : α) :
    ∀ l : List α, List.Pairwise (fun x y => le x y = true) l →
      List.Pairwise (fun x y => le x y = true) (insertLE le a l) := by
  intro l
  induction l with
  | nil => intro _; simp [insertLE]
  | cons b bs ih =>
    intro hs
    rw [List.pairwise_cons] at hs
    simp only [insertLE]
    by_cases h : le b a = true
    · rw [if_pos h]
      rw [List.pairwise_cons]
      constructor
      · intro y hy
        have hmem := (insertLE_perm le a bs).mem_iff.mp hy
        rcases List.mem_cons.mp hmem with h1 | h2
        · subst h1; exact h
        · exact hs.1 y h2
      · exact ih hs.2
    · rw [if_neg h]
      rw [List.pairwise_cons]
      constructor
      · intro y hy
        have hab : le a b = true := by
          have ht := total a b
          simp [h] at ht
          exact ht
        rcases List.mem_cons.mp hy with h1 | h2
        · subst h1; exact hab
        · exact trans a b y hab (hs.1 y h2)
      · exact List.Pairwise.cons hs.1 hs.2

theorem sortBy_sorted (le : α → α → Bool)
    (trans : ∀ a b c, le a b = true → le b c = true → le a c = true)
    (total : ∀ a b, (le a b || le b a) = true) (l : List α) :
    List.Pairwise (fun x y => le x y = true) (sortBy le l) := by
  suffices h : ∀ (l : List α) (acc : List α),
      List.Pairwise (fun x y => le x y = true) acc →
      List.Pairwise (fun x y => le x y = true)
        (l.foldl (fun acc a => insertLE le a acc) acc) by
    exact h l [] (by simp)
  intro l
  induction l with
  | nil => intro acc hacc; simpa using hacc
  | cons a as ih =>
    intro acc hacc
    simp only [List.foldl_cons]
    exact ih _ (insertLE_sorted le trans total a acc hacc)

/-! ## Filesystem and configuration model -/

/-- A filesystem path, as a list of components relative to the root. -/
abbrev Path := List String

/-- A snapshot of the relevant filesystem state.  `files` and `dirs` list the
existing regular files and directories; `readText p` is the content returned
by reading `p`, with `none` modelling a raised exception. -/
structure FS where
  files : List Path
  dirs : List Path
  readText : Path → Option String

/-- Python `Path.exists()`: true for files and directories alike. -/
def FS.pathExists (fs : FS) (p : Path) : Bool :=
  decide (p ∈ fs.files) || decide (p ∈ fs.dirs)

/-- Well-formed filesystem: no duplicate entries, no path that is both a file
and a directory, and every proper nonempty prefix of a file is a directory. -/
def FS.WF (fs : FS) : Prop :=
  fs.files.Nodup ∧ fs.dirs.Nodup ∧ (∀ p ∈ fs.files, p ∉ fs.dirs) ∧
    (∀ p ∈ fs.files, ∀ i ∈ List.range p.length, 0 < i → p.take i ∈ fs.dirs)

instance (fs : FS) : Decidable fs.WF := by
  unfold FS.WF
  infer_instance

/-- In a well-formed filesystem, every proper nonempty prefix of a file is a
directory. -/
theorem FS.WF.prefix_dir {fs : FS} (h : fs.WF) {p : Path} (hp : p ∈ fs.files)
    {i : Nat} (h0 : 0 < i) (hi : i < p.length) : p.take i ∈ fs.dirs :=
  h.2.2.2 p hp i (List.mem_range.mpr hi) h0

/-- The direct-child name of `p` below `dir`, when `p = dir ++ [n]`. -/
def childName? (dir p : Path) : Option String :=
  match p.drop dir.length with
  | [n] => if p.take dir.length = dir then some n else none
  | _ => none

/-- The two components of `p` below `dir`, when `p = dir ++ [d, n]`. -/
def grandChild? (dir p : Path) : Option (String × String) :=
  match p.drop dir.length with
  | [d, n] => if p.take dir.length = dir then some (d, n) else none
  | _ => none

/-- Python `dir.glob("*<ext>")`: the entries (files or directories) directly
inside `dir` whose final component ends in `ext`, paired with that final
component.  Enumeration order is the order of `fs.files ++ fs.dirs`, standing
in for the unspecified directory-scan order.  Globbing a path with no children
(e.g. a regular file) yields no entries. -/
def globExt (fs : FS) (dir : Path) (ext : String) : List (Path × String) :=
  (fs.files ++ fs.dirs).filterMap (fun p =>
    match childName? dir p with
    | some n => if pyEndsWith n ext then some (p, n) else none
    | none => none)

/-- Per-language configuration (the `rust` section is all discovery uses). -/
structure LanguageConfig where
  exclusions : List String := []
deriving DecidableEq

/-- Resolved configuration, as consumed by discovery and validation
(src/src/testpy/config.py `Config`; only the fields those functions read). -/
structure Config where
  test_root : String := "tests"
  features_root : String := "src"
  exclude : List String := []
  rust : LanguageConfig := {}
deriving DecidableEq

/-! ## Data model (src/src/testpy/discovery.py) -/

/-- Discovered module information. -/
structure Module where
  name : String
  path : Path
  language : String
  is_public : Bool := true
deriving DecidableEq

/-- Discovered test file information. -/
structure TestFile where
  path : Path
  category : Option String := none
  module : Option String := none
  language : String := "rust"
  is_category_entry : Bool := false
deriving DecidableEq

/-! ## Discovery engine (src/src/testpy/discovery.py) -/

/-- Embeds `_is_excluded`: wildcard exclusion-pattern matching, with the
special carve-out for the literal pattern "dev_*" and the literal name
"dev". -/
def is_excluded (name : String) (exclusions : List String) : Bool :=
  match exclusions with
  | [] => false
  | pat :: rest =>
    if pyEndsWith pat "*" then
      if pyStartsWith name (strDropRight pat 1) then
        if pat = "dev_*" ∧ name = "dev" then is_excluded name rest
        else true
      else is_excluded name rest
    else if pyStartsWith pat "*" then
      if pyEndsWith name (strDrop pat 1) then true
      else is_excluded name rest
    else if pat = name then true
    else is_excluded name rest

/-- Embeds `_check_rust_public`: substring heuristic, defaulting to `true`
when the file cannot be read. -/
def check_rust_public (fs : FS) (module_path : Path) : Bool :=
  match fs.readText module_path with
  | some content => strContains content "pub " || strContains content "pub("
  | none => true

/-- One candidate of the primary tier `src/*/mod.rs` of `discover_rust_modules`. -/
def modRsEntry? (fs : FS) (src_dir : Path) (exclusions : List String) (p : Path) :
    Option Module :=
  match grandChild? src_dir p with
  | some (d, n) =>
    if n = "mod.rs" then
      if is_excluded d exclusions then none
      else some { name := d, path := p, language := "rust",
                  is_public := check_rust_public fs p }
    else none
  | none => none

/-- One iteration of the legacy tier `src/*.rs` loop of
`discover_rust_modules`: skip `lib`/`main`, skip exclusions, skip names
already discovered, otherwise append. -/
def legacyStep (fs : FS) (exclusions : List String) (acc : List Module)
    (pn : Path × String) : List Module :=
  if stemOf pn.2 = "lib" ∨ stemOf pn.2 = "main" then acc
  else if is_excluded (stemOf pn.2) exclusions then acc
  else if acc.any (fun m => m.name == stemOf pn.2) then acc
  else acc ++ [{ name := stemOf pn.2, path := pn.1, language := "rust",
                 is_public := check_rust_public fs pn.1 }]

/-- Embeds `discover_rust_modules`: primary tier `src/*/mod.rs`, then legacy
tier `src/*.rs` with duplicate suppression, then a stable sort by name. -/
def discover_rust_modules (fs : FS) (repo_root : Path) (config : Config) :
    List Module :=
  if fs.pathExists (repo_root ++ [config.features_root]) then
    sortBy (fun a b => strLE a.name b.name)
      ((globExt fs (repo_root ++ [config.features_root]) ".rs").foldl
        (legacyStep fs (config.rust.exclusions ++ config.exclude))
        ((fs.files ++ fs.dirs).filterMap
          (modRsEntry? fs (repo_root ++ [config.features_root])
            (config.rust.exclusions ++ config.exclude))))
  else []

/-- The nine valid test categories.  The source stores them in a `set`; the
iteration order used for the per-category directory walk is unspecified there
and is fixed here, which is observationally equivalent after the final sort. -/
def validCategories : List String :=
  ["sanity", "smoke", "unit", "integration", "e2e", "uat", "chaos", "bench",
   "regression"]

/-- One candidate of patterns 1 and 3 of `discover_rust_tests`
(flat `tests/*.rs` files: category entries and `<category>_<module>`
wrappers). -/
def rootTestEntry? (pn : Path × String) : Option TestFile :=
  if pyStartsWith (stemOf pn.2) "_" || pyStartsWith (stemOf pn.2) "dev_" then none
  else if stemOf pn.2 ∈ validCategories then
    some { path := pn.1, category := some (stemOf pn.2), module := none,
           language := "rust", is_category_entry := true }
  else
    match pySplitFirstUnd (stemOf pn.2) with
    | some (category, module) =>
      if category ∈ validCategories then
        some { path := pn.1, category := some category, module := some module,
               language := "rust", is_category_entry := false }
      else none
    | none => none

/-- One candidate of pattern 2 of `discover_rust_tests`
(`tests/<category>/*.rs` files, bare or category-prefixed stems). -/
def catDirEntry? (category : String) (pn : Path × String) : Option TestFile :=
  if pyStartsWith (stemOf pn.2) "_" || pyStartsWith (stemOf pn.2) "dev_" then none
  else
    some { path := pn.1, category := some category,
           module := some (if pyStartsWith (stemOf pn.2) (category ++ "_")
                           then strDrop (stemOf pn.2) (strLen category + 1)
                           else stemOf pn.2),
           language := "rust", is_category_entry := false }

/-- The pattern-2 walk of `discover_rust_tests` over the per-category
subdirectories. -/
def catDirTests (fs : FS) (test_dir : Path) : List TestFile :=
  validCategories.flatMap (fun category =>
    if fs.pathExists (test_dir ++ [category]) then
      (globExt fs (test_dir ++ [category]) ".rs").filterMap (catDirEntry? category)
    else [])

/-- Python string `<` (lexicographic by code point, strict). -/
def strLT (s t : String) : Bool := strLE s t && !(strLE t s)

/-- Sort key comparison of `discover_rust_tests`: Python
`sorted(key = (category or "", module or ""))`. -/
def testKeyLE (a b : TestFile) : Bool :=
  if strLT (a.category.getD "") (b.category.getD "") then true
  else if strLT (b.category.getD "") (a.category.getD "") then false
  else strLE (a.module.getD "") (b.module.getD "")

/-- Embeds `discover_rust_tests`: flat wrappers and category entries, then
per-category subdirectories, then a stable sort by `(category, module)`. -/
def discover_rust_tests (fs : FS) (repo_root : Path) (config : Config) :
    List TestFile :=
  if fs.pathExists (repo_root ++ [config.test_root]) then
    sortBy testKeyLE
      (((globExt fs (repo_root ++ [config.test_root]) ".rs").filterMap
          rootTestEntry?) ++
        catDirTests fs (repo_root ++ [config.test_root]))
  else []

/-! ## Validation engine (src/src/testpy/validator.py) -/

/-- Categorized test organization violations.  Naming, unauthorized-root and
invalid-directory entries are relative paths; the rest are module, category or
package names. -/
structure Violations where
  naming : List Path := []
  missing_sanity : List String := []
  missing_uat : List String := []
  missing_category_entries : List String := []
  unauthorized_root : List Path := []
  invalid_directories : List Path := []
  missing_hub_integration : List String := []
deriving DecidableEq

/-- Embeds `Violations.total`: total violation count. -/
def Violations.total (v : Violations) : Nat :=
  v.naming.length + v.missing_sanity.length + v.missing_uat.length +
    v.missing_category_entries.length + v.unauthorized_root.length +
    v.invalid_directories.length + v.missing_hub_integration.length

/-- Embeds `Violations.is_valid`: no violations. -/
def Violations.is_valid (v : Violations) : Bool := v.total == 0

/-- Python `path.relative_to(repo_root)` for paths below `repo_root`. -/
def relTo (repo_root : Path) (p : Path) : Path := p.drop repo_root.length

/-- One iteration of validation check 1 (naming violations over flat
`tests/*.rs` files). -/
def namingEntry? (repo_root : Path) (pn : Path × String) : Option Path :=
  if pyStartsWith (stemOf pn.2) "_" || pyStartsWith (stemOf pn.2) "dev_" then none
  else if stemOf pn.2 ∈ validCategories then none
  else
    match pySplitFirstUnd (stemOf pn.2) with
    | none => some (relTo repo_root pn.1)
    | some (category, _m) =>
      if category ∈ validCategories then none else some (relTo repo_root pn.1)

/-- One iteration of validation check 5 (unauthorized root files over flat
`tests/*.rs` and `tests/*.sh` files). -/
def unauthorizedEntry? (repo_root : Path) (pn : Path × String) : Option Path :=
  if pyStartsWith (stemOf pn.2) "_" || pyStartsWith (stemOf pn.2) "dev_" then none
  else if stemOf pn.2 ∈ validCategories then none
  else
    if (match pySplitFirstUnd (stemOf pn.2) with
        | some (category, _m) => decide (category ∈ validCategories)
        | none => false) then none
    else some (relTo repo_root pn.1)

/-! ### Hub-integration check (src/src/testpy/validator.py) -/

/-- State of the external blade dependency cache, as seen by
`get_hub_packages`: `none` when the cache file does not exist, `some none`
when reading it raises, `some (some content)` on a successful read. -/
abbrev BladeCache := Option (Option String)

/-- The line scan of `get_hub_packages` over the TSV cache: find the hub
boundary row, then collect package names from rows whose first field extends
the hub id.  `hubId` carries the `hub_repo_id` loop variable (with Python
truthiness: the empty string is falsy). -/
def hubScan : List String → Option String → List String → List String
  | [], _, acc => acc
  | line :: rest, hubId, acc =>
    if (pySplitChar '\t' (pyStrip line)).length < 2 then hubScan rest hubId acc
    else if (pySplitChar '\t' (pyStrip line)).getD 1 "" = "hub" ∧
        strContains line "Cargo.toml" = true then
      hubScan rest (some ((pySplitChar '\t' (pyStrip line)).getD 0 "")) acc
    else
      match hubId with
      | some hid =>
        if hid ≠ "" ∧
            pyStartsWith ((pySplitChar '\t' (pyStrip line)).getD 0 "") hid = true then
          if (pySplitChar '\t' (pyStrip line)).length ≥ 3 ∧
              (pySplitChar '\t' (pyStrip line)).getD 0 "" ≠ hid then
            hubScan rest hubId (acc ++ [(pySplitChar '\t' (pyStrip line)).getD 2 ""])
          else if pyStartsWith ((pySplitChar '\t' (pyStrip line)).getD 0 "") hid
              = false then
            acc
          else hubScan rest hubId acc
        else hubScan rest hubId acc
      | none => hubScan rest hubId acc

/-- Embeds `get_hub_packages`: parse the blade cache into a sorted list of
distinct hub package names; any absence or read failure yields the empty
list. -/
def get_hub_packages (cache : BladeCache) : List String :=
  match cache with
  | none => []
  | some none => []
  | some (some content) =>
    sortBy strLE ((hubScan (pySplitChar '\n' content) none []).eraseDups)

/-- Embeds `has_hub_usage`: the repository uses hub iff `src/deps.rs`
exists. -/
def has_hub_usage (fs : FS) (repo_root : Path) : Bool :=
  fs.pathExists (repo_root ++ ["src", "deps.rs"])

/-- Embeds `validate_hub_integration_tests`: for hub-using repositories,
require `tests/integration/hub_<package>.rs` for each hub package. -/
def validate_hub_integration_tests (fs : FS) (repo_root : Path)
    (cache : BladeCache) : List String :=
  if has_hub_usage fs repo_root = false then []
  else if (get_hub_packages cache).isEmpty then []
  else
    (get_hub_packages cache).filterMap (fun package =>
      if fs.pathExists (repo_root ++ ["tests", "integration",
          "hub_" ++ package ++ ".rs"]) then none
      else some package)

/-- Check 6 of `validate_rust_tests`: immediate subdirectories of the test
root must be categories or one of the fixed escape-hatch names. -/
def invalidDirEntry? (repo_root test_dir : Path) (d : Path) : Option Path :=
  match childName? test_dir d with
  | some dn =>
    if dn ∈ validCategories ∨ dn = "sh" ∨ dn = "_archive" ∨ dn = "_adhoc" then none
    else some (relTo repo_root d)
  | none => none

/-- Embeds `validate_rust_tests`: one discovery pass, then the six checks.
The external blade cache state is passed in explicitly (the source reads it
from the user's home directory). -/
def validate_rust_tests (fs : FS) (repo_root : Path) (config : Config)
    (cache : BladeCache) : Violations :=
  { naming :=
      if fs.pathExists (repo_root ++ [config.test_root]) then
        (globExt fs (repo_root ++ [config.test_root]) ".rs").filterMap
          (namingEntry? repo_root)
      else []
    missing_sanity :=
      (discover_rust_modules fs repo_root config).filterMap (fun m =>
        if (discover_rust_tests fs repo_root config).any (fun t =>
            t.category == some "sanity" && t.module == some m.name) then none
        else some m.name)
    missing_uat :=
      (discover_rust_modules fs repo_root config).filterMap (fun m =>
        if (discover_rust_tests fs repo_root config).any (fun t =>
            t.category == some "uat" && t.module == some m.name) then none
        else some m.name)
    missing_category_entries :=
      validCategories.filterMap (fun category =>
        if category ∈ (discover_rust_tests fs repo_root config).filterMap
            (fun t => if t.is_category_entry then t.category else none) then none
        else if fs.pathExists
            (repo_root ++ [config.test_root, category ++ ".sh"]) then none
        else some category)
    unauthorized_root :=
      if fs.pathExists (repo_root ++ [config.test_root]) then
        ((globExt fs (repo_root ++ [config.test_root]) ".rs") ++
          (globExt fs (repo_root ++ [config.test_root]) ".sh")).filterMap
          (unauthorizedEntry? repo_root)
      else []
    invalid_directories :=
      if fs.pathExists (repo_root ++ [config.test_root]) then
        fs.dirs.filterMap
          (invalidDirEntry? repo_root (repo_root ++ [config.test_root]))
      else []
    missing_hub_integration := validate_hub_integration_tests fs repo_root cache }

/-! ## Execution orchestrator (src/src/testrs/runner.py) -/

/-- Test execution result.  `duration` is modelled as an exact rational. -/
structure TestResult where
  passed : Nat
  failed : Nat
  ignored : Nat
  total : Nat
  duration : ℚ
  output : String
  exit_code : Int
deriving DecidableEq

/-- Embeds `TestResult.success`. -/
def TestResult.success (r : TestResult) : Bool := r.exit_code == 0

/-- ASCII digit test (the summary lines produced by cargo are ASCII). -/
def isDig (c : Char) : Bool := decide ('0' ≤ c ∧ c ≤ '9')

/-- Numeric value of a digit run. -/
def natOfDigits (ds : List Char) : Nat :=
  ds.foldl (fun n c => n * 10 + (c.toNat - '0'.toNat)) 0

/-- Search, within the current line, for the first digit run immediately
followed by `kw`; return the run's value and the remainder after `kw`.
Mirrors the lazy-gap regex fragment between components of
`r"test result:.*?(\d+) passed.*?(\d+) failed.*?(\d+) ignored"` (an
unescaped dot never matches a newline, so a match never leaves the line). -/
def findNumKw (kw : List Char) : List Char → Option (Nat × List Char)
  | [] => none
  | c :: cs =>
    if c = '\n' then none
    else if isDig c then
      if List.isPrefixOf kw ((c :: cs).dropWhile isDig) then
        some (natOfDigits ((c :: cs).takeWhile isDig),
              ((c :: cs).dropWhile isDig).drop kw.length)
      else findNumKw kw cs
    else findNumKw kw cs

/-- Continue the summary regex after a `"test result:"` literal. -/
def trySummaryFrom (cs : List Char) : Option (Nat × Nat × Nat) :=
  match findNumKw " passed".data cs with
  | none => none
  | some (p, r1) =>
    match findNumKw " failed".data r1 with
    | none => none
    | some (f, r2) =>
      match findNumKw " ignored".data r2 with
      | none => none
      | some (i, _r3) => some (p, f, i)

/-- Leftmost-match search for the whole summary regex: try every occurrence
of the `"test result:"` literal in order. -/
def scanSummary : List Char → Option (Nat × Nat × Nat)
  | [] => none
  | c :: cs =>
    if List.isPrefixOf "test result:".data (c :: cs) then
      match trySummaryFrom ((c :: cs).drop "test result:".data.length) with
      | some r => some r
      | none => scanSummary cs
    else scanSummary cs

/-- Embeds `parse_cargo_test_output`: counts from the summary line, all
zeros when no summary parses. -/
def parse_cargo_test_output (output : String) : Nat × Nat × Nat :=
  match scanSummary output.data with
  | some r => r
  | none => (0, 0, 0)

/-- Character class `[\d.]` of the duration regex. -/
def isDigDot (c : Char) : Bool := isDig c || c = '.'

/-- Leftmost-match search for `r"finished in ([\d.]+)s"`: the captured
character run, if any occurrence matches. -/
def scanDuration : List Char → Option (List Char)
  | [] => none
  | c :: cs =>
    if List.isPrefixOf "finished in ".data (c :: cs) then
      if ((c :: cs).drop "finished in ".data.length).takeWhile isDigDot ≠ [] ∧
          (((c :: cs).drop "finished in ".data.length).dropWhile isDigDot).head?
            = some 's' then
        some (((c :: cs).drop "finished in ".data.length).takeWhile isDigDot)
      else scanDuration cs
    else scanDuration cs

/-- Python `float()` on a `[\d.]+` capture: defined exactly when there is at
most one dot and at least one digit (otherwise `float` raises `ValueError`),
returning the exact rational value. -/
def pyFloatOfRun? (cs : List Char) : Option ℚ :=
  match cs.dropWhile isDig with
  | [] => if cs.takeWhile isDig = [] then none
          else some (natOfDigits (cs.takeWhile isDig) : ℚ)
  | '.' :: frac =>
    if frac.all isDig ∧ (cs.takeWhile isDig ≠ [] ∨ frac ≠ []) then
      some ((natOfDigits (cs.takeWhile isDig) : ℚ) +
        (natOfDigits frac : ℚ) / ((10 : ℚ) ^ frac.length))
    else none
  | _ => none

/-- Outcome of the `subprocess.run` call, as seen by `run_cargo_test`:
normal completion with a return code and captured output, a raised
`subprocess.TimeoutExpired` (with optional partial output), a raised
`FileNotFoundError`, or any other exception. -/
inductive ExecOutcome where
  | completed (returncode : Int) (stdout : String) (stderr : String)
  | timedOut (stdout : Option String) (stderr : Option String)
  | fileNotFound
  | otherError (msg : String)
deriving DecidableEq

/-- The `cargo test` command built by `run_cargo_test` from the optional
category/module filters. -/
def build_cargo_cmd (category : Option String) (module : Option String) :
    List String :=
  match category, module with
  | some c, some m => ["cargo", "test", "--test", c ++ "_" ++ m]
  | some c, none => ["cargo", "test", c]
  | none, some m => ["cargo", "test", m]
  | none, none => ["cargo", "test"]

/-- The full command executed: wrapped in the external timeout binary when
one is available. -/
def finalCmd (timeout_bin : Option String) (timeout : Nat)
    (cmd : List String) : List String :=
  match timeout_bin with
  | some tb => [tb, toString timeout ++ "s"] ++ cmd
  | none => cmd

/-- The library-level timeout passed to `subprocess.run`: only used when no
external timeout binary is available. -/
def subTimeout (timeout_bin : Option String) (timeout : Nat) : Option Nat :=
  match timeout_bin with
  | some _ => none
  | none => some timeout

/-- Embeds `run_cargo_test`.  `timeout_bin` is the result of
`find_timeout_command()`; `exec` models `subprocess.run`, mapping the final
command and the optional library-level timeout to an outcome.  The
`repo_root` working directory does not influence the structured result. -/
def run_cargo_test (timeout_bin : Option String)
    (exec : List String → Option Nat → ExecOutcome) (_repo_root : Path)
    (category : Option String) (module : Option String) (timeout : Nat) :
    TestResult :=
  match exec (finalCmd timeout_bin timeout (build_cargo_cmd category module))
      (subTimeout timeout_bin timeout) with
  | .completed returncode stdout stderr =>
    match scanDuration (stdout ++ stderr).data with
    | none =>
      { passed := (parse_cargo_test_output (stdout ++ stderr)).1,
        failed := (parse_cargo_test_output (stdout ++ stderr)).2.1,
        ignored := (parse_cargo_test_output (stdout ++ stderr)).2.2,
        total := (parse_cargo_test_output (stdout ++ stderr)).1 +
          (parse_cargo_test_output (stdout ++ stderr)).2.1 +
          (parse_cargo_test_output (stdout ++ stderr)).2.2,
        duration := 0, output := stdout ++ stderr, exit_code := returncode }
    | some run =>
      match pyFloatOfRun? run with
      | some d =>
        { passed := (parse_cargo_test_output (stdout ++ stderr)).1,
          failed := (parse_cargo_test_output (stdout ++ stderr)).2.1,
          ignored := (parse_cargo_test_output (stdout ++ stderr)).2.2,
          total := (parse_cargo_test_output (stdout ++ stderr)).1 +
            (parse_cargo_test_output (stdout ++ stderr)).2.1 +
            (parse_cargo_test_output (stdout ++ stderr)).2.2,
          duration := d, output := stdout ++ stderr, exit_code := returncode }
      | none =>
        { passed := 0, failed := 0, ignored := 0, total := 0, duration := 0,
          output := "Error executing cargo test: could not convert string to float: "
            ++ ⟨run⟩,
          exit_code := 1 }
  | .timedOut stdout stderr =>
    { passed := 0, failed := 0, ignored := 0, total := 0,
      duration := (timeout : ℚ),
      output := (stdout.getD "") ++ (stderr.getD "") ++
        "\n\nTest execution timed out after " ++ toString timeout ++ " seconds",
      exit_code := 124 }
  | .fileNotFound =>
    { passed := 0, failed := 0, ignored := 0, total := 0, duration := 0,
      output := "Error: cargo command not found. Is Rust installed?",
      exit_code := 127 }
  | .otherError msg =>
    { passed := 0, failed := 0, ignored := 0, total := 0, duration := 0,
      output := "Error executing cargo test: " ++ msg, exit_code := 1 }

/-- Embeds `run_rust_tests`: the main entry point, delegating to
`run_cargo_test`. -/
def run_rust_tests (timeout_bin : Option String)
    (exec : List String → Option Nat → ExecOutcome) (repo_root : Path)
    (category : Option String) (module : Option String) (timeout : Nat) :
    TestResult :=
  run_cargo_test timeout_bin exec repo_root category module timeout

/-! ## Helper lemmas -/

theorem childName?_append (dir : Path) (n : String) :
    childName? dir (dir ++ [n]) = some n := by
  unfold childName?
  rw [List.drop_left, List.take_left]
  simp

theorem childName?_eq_some {dir p : Path} {n : String}
    (h : childName? dir p = some n) : p = dir ++ [n] := by
  unfold childName? at h
  split at h
  · split_ifs at h with ht
    · rename_i heq
      have := List.take_append_drop dir.length p
      rw [ht, heq] at this
      simp at h
      rw [h] at this
      exact this.symm
  · exact absurd h (by simp)

theorem grandChild?_append (dir : Path) (d n : String) :
    grandChild? dir (dir ++ [d, n]) = some (d, n) := by
  unfold grandChild?
  rw [List.drop_left, List.take_left]
  simp

theorem grandChild?_eq_some {dir p : Path} {d n : String}
    (h : grandChild? dir p = some (d, n)) : p = dir ++ [d, n] := by
  unfold grandChild? at h
  split at h
  · split_ifs at h with ht
    · rename_i heq
      have := List.take_append_drop dir.length p
      rw [ht, heq] at this
      simp at h
      rw [h.1, h.2] at this
      exact this.symm
  · exact absurd h (by simp)

theorem mem_globExt {fs : FS} {dir : Path} {ext : String} {pn : Path × String} :
    pn ∈ globExt fs dir ext ↔
      pn.1 ∈ fs.files ++ fs.dirs ∧ childName? dir pn.1 = some pn.2 ∧
        pyEndsWith pn.2 ext = true := by
  unfold globExt
  rw [List.mem_filterMap]
  constructor
  · rintro ⟨p, hp, hf⟩
    cases hcn : childName? dir p with
    | none => rw [hcn] at hf; simp at hf
    | some n =>
      rw [hcn] at hf
      dsimp only at hf
      by_cases he : pyEndsWith n ext = true
      · rw [if_pos he] at hf
        have hpn : pn = (p, n) := by simpa using hf.symm
        subst hpn
        exact ⟨hp, hcn, he⟩
      · rw [if_neg he] at hf
        simp at hf
  · rintro ⟨h1, h2, h3⟩
    refine ⟨pn.1, h1, ?_⟩
    rw [h2]
    dsimp only
    rw [if_pos h3]

/-- One unfolding step of the `_is_excluded` loop: a later pattern keeps
matching. -/
theorem is_excluded_cons_of {name : String} (q : String) {rest : List String}
    (h : is_excluded name rest = true) : is_excluded name (q :: rest) = true := by
  rw [is_excluded]
  split_ifs <;> first | rfl | exact h

theorem is_excluded_of_trailing {excl : List String} {name p : String}
    (hmem : p ∈ excl) (he : pyEndsWith p "*" = true)
    (hs : pyStartsWith name (strDropRight p 1) = true) :
    is_excluded name excl = true := by
  induction excl with
  | nil => cases hmem
  | cons q rest ih =>
    rcases List.mem_cons.mp hmem with h | hmem'
    · subst h
      rw [is_excluded, if_pos he, if_pos hs]
      by_cases hdev : p = "dev_*" ∧ name = "dev"
      · exfalso
        rw [hdev.1] at hs
        rw [hdev.2] at hs
        exact absurd hs (by decide)
      · rw [if_neg hdev]
    · exact is_excluded_cons_of q (ih hmem')

theorem is_excluded_of_leading {excl : List String} {name p : String}
    (hmem : p ∈ excl) (hne : pyEndsWith p "*" = false)
    (hs : pyStartsWith p "*" = true) (he : pyEndsWith name (strDrop p 1) = true) :
    is_excluded name excl = true := by
  induction excl with
  | nil => cases hmem
  | cons q rest ih =>
    rcases List.mem_cons.mp hmem with h | hmem'
    · subst h
      rw [is_excluded, if_neg (by rw [hne]; exact Bool.false_ne_true),
        if_pos hs, if_pos he]
    · exact is_excluded_cons_of q (ih hmem')

/-! ## Claim theorems -/

/-- C2.  For every `Violations` value, `total()` is the sum of the lengths of
the seven violation lists, and `is_valid()` holds iff `total() = 0`. -/
theorem c2_violations_total_is_valid :
    ∀ v : Violations,
      v.total = v.naming.length + v.missing_sanity.length + v.missing_uat.length +
        v.missing_category_entries.length + v.unauthorized_root.length +
        v.invalid_directories.length + v.missing_hub_integration.length ∧
      (v.is_valid = true ↔ v.total = 0) := by
  intro v
  refine ⟨rfl, ?_⟩
  simp [Violations.is_valid]

/-- Witness for C2 at a concrete value. -/
theorem c2_violations_total_is_valid_witness :
    (Violations.total { naming := [["tests", "x.rs"]] } = 1) ∧
      (Violations.is_valid { naming := [["tests", "x.rs"]] } = true ↔
        Violations.total { naming := [["tests", "x.rs"]] } = 0) :=
  ⟨by decide, (c2_violations_total_is_valid { naming := [["tests", "x.rs"]] }).2⟩

/-- C3.  Exclusion-pattern semantics of `_is_excluded`: a trailing-wildcard
pattern excludes every name with the pattern's prefix; a leading-wildcard
(non-trailing-wildcard) pattern excludes every name with the pattern's
suffix; an otherwise-plain pattern excludes exactly the equal name; pattern
"dev_*" excludes "dev_utils" but not the bare name "dev", while other
trailing-wildcard patterns such as "dev*" do exclude "dev". -/
theorem c3_exclusion_pattern_semantics :
    (∀ (excl : List String) (name p : String), p ∈ excl →
      pyEndsWith p "*" = true → pyStartsWith name (strDropRight p 1) = true →
      is_excluded name excl = true) ∧
    (∀ (excl : List String) (name p : String), p ∈ excl →
      pyEndsWith p "*" = false → pyStartsWith p "*" = true →
      pyEndsWith name (strDrop p 1) = true → is_excluded name excl = true) ∧
    (∀ name p : String, pyEndsWith p "*" = false → pyStartsWith p "*" = false →
      (is_excluded name [p] = true ↔ name = p)) ∧
    is_excluded "dev_utils" ["dev_*"] = true ∧
    is_excluded "dev" ["dev_*"] = false ∧
    is_excluded "dev" ["dev*"] = true := by
  refine ⟨?_, ?_, ?_, by decide, by decide, by decide⟩
  · intro excl name p hmem he hs
    exact is_excluded_of_trailing hmem he hs
  · intro excl name p hmem hne hs he
    exact is_excluded_of_leading hmem hne hs he
  · intro name p hne hns
    rw [is_excluded, if_neg (by rw [hne]; exact Bool.false_ne_true),
      if_neg (by rw [hns]; exact Bool.false_ne_true)]
    constructor
    · intro h
      by_cases hpn : p = name
      · exact hpn.symm
      · rw [if_neg hpn] at h
        exact absurd h (by simp [is_excluded])
    · intro h
      rw [if_pos h.symm]

/-- Witness for C3 at concrete inputs. -/
theorem c3_exclusion_pattern_semantics_witness :
    is_excluded "abc" ["ab*"] = true ∧ is_excluded "xbc" ["*bc"] = true ∧
      (is_excluded "plain" ["plain"] = true ↔ ("plain" : String) = "plain") :=
  ⟨c3_exclusion_pattern_semantics.1 ["ab*"] "abc" "ab*" (by decide) (by decide)
      (by decide),
    c3_exclusion_pattern_semantics.2.1 ["*bc"] "xbc" "*bc" (by decide) (by decide)
      (by decide) (by decide),
    c3_exclusion_pattern_semantics.2.2.1 "plain" "plain" (by decide) (by decide)⟩

/-- C8.  The hub-integration check degrades silently: when the repository has
no `src/deps.rs` marker, or the blade cache file is absent, or reading it
raises, `validate_hub_integration_tests` returns the empty list (and
`get_hub_packages` returns the empty package list), never an error. -/
theorem c8_hub_integration_never_fatal :
    (∀ (fs : FS) (repo_root : Path) (cache : BladeCache),
      has_hub_usage fs repo_root = false →
      validate_hub_integration_tests fs repo_root cache = []) ∧
    (∀ (fs : FS) (repo_root : Path),
      validate_hub_integration_tests fs repo_root none = []) ∧
    (∀ (fs : FS) (repo_root : Path),
      validate_hub_integration_tests fs repo_root (some none) = []) ∧
    get_hub_packages none = [] ∧ get_hub_packages (some none) = [] := by
  refine ⟨?_, ?_, ?_, rfl, rfl⟩
  · intro fs repo_root cache h
    unfold validate_hub_integration_tests
    rw [if_pos h]
  · intro fs repo_root
    unfold validate_hub_integration_tests
    split_ifs with h1 h2
    · rfl
    · rfl
    · exact absurd rfl h2
  · intro fs repo_root
    unfold validate_hub_integration_tests
    split_ifs with h1 h2
    · rfl
    · rfl
    · exact absurd rfl h2

/-- Witness for C8 at a concrete repository and cache state. -/
theorem c8_hub_integration_never_fatal_witness :
    validate_hub_integration_tests ⟨[["README.md"]], [], fun _ => none⟩ []
      (some (some "r1\thub\tx/Cargo.toml")) = [] :=
  c8_hub_integration_never_fatal.1 ⟨[["README.md"]], [], fun _ => none⟩ []
    (some (some "r1\thub\tx/Cargo.toml")) (by decide)

/-- C9.  A missing test-root directory makes `discover_rust_tests` return the
empty list and `validate_rust_tests` produce zero naming and zero
unauthorized-root violations; a missing module-root directory makes
`discover_rust_modules` return the empty list.  Absence is never an error. -/
theorem c9_missing_roots_tolerated :
    (∀ (fs : FS) (repo_root : Path) (config : Config),
      fs.pathExists (repo_root ++ [config.test_root]) = false →
      discover_rust_tests fs repo_root config = []) ∧
    (∀ (fs : FS) (repo_root : Path) (config : Config),
      fs.pathExists (repo_root ++ [config.features_root]) = false →
      discover_rust_modules fs repo_root config = []) ∧
    (∀ (fs : FS) (repo_root : Path) (config : Config) (cache : BladeCache),
      fs.pathExists (repo_root ++ [config.test_root]) = false →
      (validate_rust_tests fs repo_root config cache).naming = [] ∧
      (validate_rust_tests fs repo_root config cache).unauthorized_root = []) := by
  refine ⟨?_, ?_, ?_⟩
  · intro fs repo_root config h
    unfold discover_rust_tests
    rw [if_neg (by rw [h]; exact Bool.false_ne_true)]
  · intro fs repo_root config h
    unfold discover_rust_modules
    rw [if_neg (by rw [h]; exact Bool.false_ne_true)]
  · intro fs repo_root config cache h
    constructor
    · show (if fs.pathExists (repo_root ++ [config.test_root]) = true then
          (globExt fs (repo_root ++ [config.test_root]) ".rs").filterMap
            (namingEntry? repo_root)
        else []) = []
      rw [if_neg (by rw [h]; exact Bool.false_ne_true)]
    · show (if fs.pathExists (repo_root ++ [config.test_root]) = true then
          ((globExt fs (repo_root ++ [config.test_root]) ".rs") ++
            (globExt fs (repo_root ++ [config.test_root]) ".sh")).filterMap
            (unauthorizedEntry? repo_root)
        else []) = []
      rw [if_neg (by rw [h]; exact Bool.false_ne_true)]

/-- Witness for C9 at a concrete repository with no tests/ and no src/. -/
theorem c9_missing_roots_tolerated_witness :
    discover_rust_tests ⟨[["README.md"]], [], fun _ => none⟩ [] {} = [] ∧
      discover_rust_modules ⟨[["README.md"]], [], fun _ => none⟩ [] {} = [] ∧
      (validate_rust_tests ⟨[["README.md"]], [], fun _ => none⟩ [] {} none).naming
        = [] ∧
      (validate_rust_tests ⟨[["README.md"]], [], fun _ => none⟩ [] {}
        none).unauthorized_root = [] :=
  ⟨c9_missing_roots_tolerated.1 ⟨[["README.md"]], [], fun _ => none⟩ [] {}
      (by decide),
    c9_missing_roots_tolerated.2.1 ⟨[["README.md"]], [], fun _ => none⟩ [] {}
      (by decide),
    (c9_missing_roots_tolerated.2.2 ⟨[["README.md"]], [], fun _ => none⟩ [] {}
      none (by decide)).1,
    (c9_missing_roots_tolerated.2.2 ⟨[["README.md"]], [], fun _ => none⟩ [] {}
      none (by decide)).2⟩

/-- C1 counterexample.  A timeout mediated by the external timeout wrapper
(so the wrapper kills cargo and `subprocess.run` completes normally with
return code 124 and the partial captured output, here empty) takes the
normal completion path of `run_cargo_test`: the result has `exit_code = 124`
but `duration = 0` (parsed from the output, not the configured 600) and no
explanatory timeout message appended, refuting the claim that every expired
timeout yields `duration == timeout` and an appended message. -/
theorem c1_claim_counterexample :
    run_cargo_test (some "/usr/bin/timeout")
        (fun _ _ => .completed 124 "" "") [] none none 600 =
      { passed := 0, failed := 0, ignored := 0, total := 0, duration := 0,
        output := "", exit_code := 124 } ∧
      ¬ ((run_cargo_test (some "/usr/bin/timeout")
            (fun _ _ => .completed 124 "" "") [] none none 600).duration
            = (600 : ℚ) ∧
          strContains (run_cargo_test (some "/usr/bin/timeout")
            (fun _ _ => .completed 124 "" "") [] none none 600).output
            "timed out after" = true) := by
  constructor
  · rfl
  · intro hcl
    have h0 : (run_cargo_test (some "/usr/bin/timeout")
        (fun _ _ => .completed 124 "" "") [] none none 600).duration = 0 := rfl
    rw [h0] at hcl
    exact absurd hcl.1 (by norm_num)

/-- C1 (amended).  When no external timeout wrapper is available and the
subprocess-library timeout expires (`subprocess.TimeoutExpired` is raised),
`run_cargo_test` returns a `TestResult` with `exit_code = 124`, zero counts,
`duration` equal to the configured timeout, and the explanatory timeout
message appended to the captured partial output.  (With the external
wrapper, the run instead takes the normal completion path, as the
counterexample shows.) -/
theorem c1_subprocess_timeout_result
    (exec : List String → Option Nat → ExecOutcome) (repo_root : Path)
    (category module : Option String) (timeout : Nat) (so se : Option String)
    (h : exec (build_cargo_cmd category module) (some timeout)
      = .timedOut so se) :
    run_cargo_test none exec repo_root category module timeout =
      { passed := 0, failed := 0, ignored := 0, total := 0,
        duration := (timeout : ℚ),
        output := (so.getD "") ++ (se.getD "") ++
          "\n\nTest execution timed out after " ++ toString timeout ++ " seconds",
        exit_code := 124 } := by
  unfold run_cargo_test
  have hfc : finalCmd none timeout (build_cargo_cmd category module)
      = build_cargo_cmd category module := rfl
  have hst : subTimeout none timeout = some timeout := rfl
  rw [hfc, hst, h]

/-- Witness for the amended C1 at a concrete timed-out invocation. -/
theorem c1_subprocess_timeout_result_witness :
    run_cargo_test none (fun _ _ => .timedOut (some "partial") none) []
        (some "sanity") none 600 =
      { passed := 0, failed := 0, ignored := 0, total := 0,
        duration := (600 : ℚ),
        output := "partial" ++ "" ++
          "\n\nTest execution timed out after " ++ toString 600 ++ " seconds",
        exit_code := 124 } :=
  c1_subprocess_timeout_result (fun _ _ => .timedOut (some "partial") none) []
    (some "sanity") none 600 (some "partial") none rfl

/-- Decomposition of membership in the legacy-tier fold of
`discover_rust_modules`: an element is either carried over from the
accumulator or was appended by some candidate that passed the lib/main and
exclusion filters. -/
theorem mem_foldl_legacyStep {fs : FS} {excl : List String}
    {cands : List (Path × String)} {acc : List Module} {m : Module}
    (hm : m ∈ cands.foldl (legacyStep fs excl) acc) :
    m ∈ acc ∨ ∃ pn ∈ cands,
      m = { name := stemOf pn.2, path := pn.1, language := "rust",
            is_public := check_rust_public fs pn.1 } ∧
      stemOf pn.2 ≠ "lib" ∧ stemOf pn.2 ≠ "main" ∧
      is_excluded (stemOf pn.2) excl = false := by
  induction cands generalizing acc with
  | nil => exact Or.inl hm
  | cons pn rest ih =>
    simp only [List.foldl_cons] at hm
    rcases ih hm with hacc | hex
    · unfold legacyStep at hacc
      split_ifs at hacc with h1 h2 h3
      · exact Or.inl hacc
      · exact Or.inl hacc
      · exact Or.inl hacc
      · rcases List.mem_append.mp hacc with h | h
        · exact Or.inl h
        · right
          refine ⟨pn, List.mem_cons_self _ _, List.mem_singleton.mp h, ?_, ?_, ?_⟩
          · intro hc; exact h1 (Or.inl hc)
          · intro hc; exact h1 (Or.inr hc)
          · exact Bool.eq_false_iff.mpr h2
    · right
      obtain ⟨pn', hpn', hrest⟩ := hex
      exact ⟨pn', List.mem_cons_of_mem _ hpn', hrest⟩

/-- Membership in the primary tier of `discover_rust_modules` forces the
`src/<name>/mod.rs` path shape. -/
theorem modRsEntry?_eq_some {fs : FS} {src_dir : Path} {excl : List String}
    {p : Path} {m : Module} (h : modRsEntry? fs src_dir excl p = some m) :
    m.path = src_dir ++ [m.name, "mod.rs"] ∧
      is_excluded m.name excl = false := by
  unfold modRsEntry? at h
  cases hgc : grandChild? src_dir p with
  | none => rw [hgc] at h; simp at h
  | some dn =>
    rw [hgc] at h
    obtain ⟨d, n⟩ := dn
    dsimp only at h
    split_ifs at h with h1 h2
    have hm := Option.some.inj h
    subst hm
    dsimp only
    constructor
    · rw [← h1]
      exact grandChild?_eq_some hgc
    · exact Bool.eq_false_iff.mpr h2

/-- Full description of a successful flat-file candidate of
`discover_rust_tests` (patterns 1 and 3). -/
theorem rootTestEntry?_eq_some {pn : Path × String} {t : TestFile}
    (h : rootTestEntry? pn = some t) :
    t.path = pn.1 ∧
      ((t.category = some (stemOf pn.2) ∧ t.module = none ∧
          t.is_category_entry = true ∧ stemOf pn.2 ∈ validCategories) ∨
        (∃ c md, pySplitFirstUnd (stemOf pn.2) = some (c, md) ∧
          t.category = some c ∧ t.module = some md ∧ c ∈ validCategories ∧
          t.is_category_entry = false)) := by
  unfold rootTestEntry? at h
  split_ifs at h with h1 h2
  · have hm := Option.some.inj h
    subst hm
    exact ⟨rfl, Or.inl ⟨rfl, rfl, rfl, h2⟩⟩
  · cases hsp : pySplitFirstUnd (stemOf pn.2) with
    | none => rw [hsp] at h; simp at h
    | some cm =>
      rw [hsp] at h
      obtain ⟨c, md⟩ := cm
      dsimp only at h
      split_ifs at h with h3
      have hm := Option.some.inj h
      subst hm
      exact ⟨rfl, Or.inr ⟨c, md, rfl, rfl, rfl, h3, rfl⟩⟩

/-- Full description of a successful per-category-directory candidate of
`discover_rust_tests` (pattern 2). -/
theorem catDirEntry?_eq_some {category : String} {pn : Path × String}
    {t : TestFile} (h : catDirEntry? category pn = some t) :
    t.path = pn.1 ∧ t.category = some category ∧
      t.module = some (if pyStartsWith (stemOf pn.2) (category ++ "_") = true
        then strDrop (stemOf pn.2) (strLen category + 1) else stemOf pn.2) ∧
      t.is_category_entry = false := by
  unfold catDirEntry? at h
  split_ifs at h with h1 h2
  · have hm := Option.some.inj h
    subst hm
    exact ⟨rfl, rfl, by rw [if_pos h2], rfl⟩
  · have hm := Option.some.inj h
    subst hm
    exact ⟨rfl, rfl, by rw [if_neg h2], rfl⟩

/-- Membership in the per-category subdirectory walk of
`discover_rust_tests`. -/
theorem mem_catDirTests {fs : FS} {test_dir : Path} {t : TestFile} :
    t ∈ catDirTests fs test_dir ↔
      ∃ category ∈ validCategories,
        fs.pathExists (test_dir ++ [category]) = true ∧
        ∃ pn ∈ globExt fs (test_dir ++ [category]) ".rs",
          catDirEntry? category pn = some t := by
  unfold catDirTests
  rw [List.mem_flatMap]
  constructor
  · rintro ⟨cat, hcat, hmem⟩
    by_cases hpe : fs.pathExists (test_dir ++ [cat]) = true
    · rw [if_pos hpe] at hmem
      obtain ⟨pn, hg1, hg2⟩ := List.mem_filterMap.mp hmem
      exact ⟨cat, hcat, hpe, pn, hg1, hg2⟩
    · rw [if_neg hpe] at hmem
      simp at hmem
  · rintro ⟨cat, hcat, hpe, pn, hg1, hg2⟩
    refine ⟨cat, hcat, ?_⟩
    rw [if_pos hpe]
    exact List.mem_filterMap.mpr ⟨pn, hg1, hg2⟩

/-- C7.  Every `TestFile` returned by `discover_rust_tests` is either a
category entry (category present, module absent) or a per-module test
(category and module both present); category and module are never both
absent. -/
theorem c7_testfile_shape_invariant :
    ∀ (fs : FS) (repo_root : Path) (config : Config) (t : TestFile),
      t ∈ discover_rust_tests fs repo_root config →
      (t.is_category_entry = true →
        t.category.isSome = true ∧ t.module = none) ∧
      (t.is_category_entry = false →
        t.category.isSome = true ∧ t.module.isSome = true) := by
  intro fs repo_root config t ht
  unfold discover_rust_tests at ht
  split_ifs at ht with hex
  · rw [mem_sortBy] at ht
    rcases List.mem_append.mp ht with h1 | h2
    · obtain ⟨pn, hpn, hf⟩ := List.mem_filterMap.mp h1
      obtain ⟨_, hcase⟩ := rootTestEntry?_eq_some hf
      rcases hcase with ⟨hc, hm, hice, _⟩ | ⟨c, md, _, hc, hm, _, hice⟩
      · constructor
        · intro _; exact ⟨by rw [hc]; rfl, hm⟩
        · intro hfalse; rw [hice] at hfalse; exact absurd hfalse (by simp)
      · constructor
        · intro htrue; rw [hice] at htrue; exact absurd htrue (by simp)
        · intro _; exact ⟨by rw [hc]; rfl, by rw [hm]; rfl⟩
    · obtain ⟨cat, _, _, pn, _, hf⟩ := mem_catDirTests.mp h2
      obtain ⟨_, hc, hm, hice⟩ := catDirEntry?_eq_some hf
      constructor
      · intro htrue; rw [hice] at htrue; exact absurd htrue (by simp)
      · intro _; exact ⟨by rw [hc]; rfl, by rw [hm]; rfl⟩
  · simp at ht

/-- Witness for C7: a concrete repository exercising both shapes. -/
theorem c7_testfile_shape_invariant_witness :
    (TestFile.category
        { path := ["tests", "sanity.rs"], category := some "sanity",
          module := none, language := "rust",
          is_category_entry := true }).isSome = true ∧
      TestFile.module
        { path := ["tests", "sanity.rs"], category := some "sanity",
          module := none, language := "rust",
          is_category_entry := true } = none :=
  (c7_testfile_shape_invariant
      ⟨[["tests", "sanity.rs"]], [["tests"]], fun _ => none⟩ [] {}
      { path := ["tests", "sanity.rs"], category := some "sanity",
        module := none, language := "rust", is_category_entry := true }
      (by decide)).1 rfl

/-- C10.  No module returned by `discover_rust_modules` is defined by the
flat file `src/lib.rs` or `src/main.rs`: the stems `lib` and `main` are
skipped in the legacy tier unconditionally, whatever the configured
exclusions. -/
theorem c10_lib_main_never_discovered :
    ∀ (fs : FS) (repo_root : Path) (config : Config) (m : Module),
      m ∈ discover_rust_modules fs repo_root config →
      m.path ≠ repo_root ++ [config.features_root] ++ ["lib.rs"] ∧
      m.path ≠ repo_root ++ [config.features_root] ++ ["main.rs"] := by
  intro fs repo_root config m hm
  unfold discover_rust_modules at hm
  split_ifs at hm with hex
  · rw [mem_sortBy] at hm
    rcases mem_foldl_legacyStep hm with h1 | h2
    · obtain ⟨p, hp, hf⟩ := List.mem_filterMap.mp h1
      obtain ⟨hpath, _⟩ := modRsEntry?_eq_some hf
      constructor <;> intro hc <;> rw [hc] at hpath <;>
        · have hlen := congrArg List.length hpath
          simp at hlen
    · obtain ⟨pn, hpn, hmeq, hlib, hmain, _⟩ := h2
      obtain ⟨_, hcn, _⟩ := mem_globExt.mp hpn
      have hpath := childName?_eq_some hcn
      constructor <;> intro hc
      · rw [hmeq] at hc
        dsimp only at hc
        rw [hpath] at hc
        have hn : pn.2 = "lib.rs" := by
          have := List.append_cancel_left hc
          simpa using this
        rw [hn] at hlib
        exact hlib (by decide)
      · rw [hmeq] at hc
        dsimp only at hc
        rw [hpath] at hc
        have hn : pn.2 = "main.rs" := by
          have := List.append_cancel_left hc
          simpa using this
        rw [hn] at hmain
        exact hmain (by decide)
  · simp at hm

/-- Witness for C10 at a concrete repository containing `src/lib.rs`. -/
theorem c10_lib_main_never_discovered_witness :
    Module.path
        { name := "math", path := ["src", "math", "mod.rs"],
          language := "rust", is_public := true } ≠
      ([] : Path) ++ ["src"] ++ ["lib.rs"] :=
  (c10_lib_main_never_discovered
      ⟨[["src", "lib.rs"], ["src", "math", "mod.rs"]],
        [["src"], ["src", "math"]], fun _ => none⟩ [] {}
      { name := "math", path := ["src", "math", "mod.rs"],
        language := "rust", is_public := true }
      (by decide)).1

/-- Check 1 and check 5 of `validate_rust_tests` apply the same per-file
criterion. -/
theorem namingEntry?_eq_unauthorizedEntry? (repo_root : Path)
    (pn : Path × String) :
    namingEntry? repo_root pn = unauthorizedEntry? repo_root pn := by
  unfold namingEntry? unauthorizedEntry?
  cases hsp : pySplitFirstUnd (stemOf pn.2) with
  | none =>
    dsimp only
    split_ifs <;> first | rfl | simp_all
  | some cm =>
    obtain ⟨c, md⟩ := cm
    dsimp only
    by_cases hc : c ∈ validCategories
    · simp only [hc]
      split_ifs <;> first | rfl | simp_all
    · simp only [hc]
      split_ifs <;> first | rfl | simp_all

/-- C6.  Every path appended to the naming list by check 1 is also appended
to the unauthorized-root list by check 4 (which extends the same criterion
to `.sh` files): the latter is a superset of the former. -/
theorem c6_naming_subset_unauthorized :
    ∀ (fs : FS) (repo_root : Path) (config : Config) (cache : BladeCache)
      (x : Path),
      x ∈ (validate_rust_tests fs repo_root config cache).naming →
      x ∈ (validate_rust_tests fs repo_root config cache).unauthorized_root := by
  intro fs repo_root config cache x hx
  show x ∈ (if fs.pathExists (repo_root ++ [config.test_root]) = true then
      ((globExt fs (repo_root ++ [config.test_root]) ".rs") ++
        (globExt fs (repo_root ++ [config.test_root]) ".sh")).filterMap
        (unauthorizedEntry? repo_root)
    else [])
  have hx' : x ∈ (if fs.pathExists (repo_root ++ [config.test_root]) = true then
      (globExt fs (repo_root ++ [config.test_root]) ".rs").filterMap
        (namingEntry? repo_root)
    else []) := hx
  split_ifs at hx' ⊢ with hex
  · obtain ⟨pn, hpn, hf⟩ := List.mem_filterMap.mp hx'
    refine List.mem_filterMap.mpr ⟨pn, List.mem_append_left _ hpn, ?_⟩
    rw [← namingEntry?_eq_unauthorizedEntry?]
    exact hf
  · simp at hx'

/-- Witness for C6: a concrete naming violation is also an unauthorized-root
violation. -/
theorem c6_naming_subset_unauthorized_witness :
    ["tests", "readme.rs"] ∈ (validate_rust_tests
        ⟨[["tests", "readme.rs"]], [["tests"]], fun _ => none⟩ [] {}
        none).naming ∧
      ["tests", "readme.rs"] ∈ (validate_rust_tests
        ⟨[["tests", "readme.rs"]], [["tests"]], fun _ => none⟩ [] {}
        none).unauthorized_root :=
  ⟨by decide,
    c6_naming_subset_unauthorized
      ⟨[["tests", "readme.rs"]], [["tests"]], fun _ => none⟩ [] {} none
      ["tests", "readme.rs"] (by decide)⟩

/-- C4.  Directory-style test files.  Part 1: every discovered test whose
path lies two levels below the test root (`tests/<cat>/<n>`) was attributed
the enclosing directory name as its category (never re-parsed from the
stem), its module is the stem with the `<cat>_` prefix removed when present
and the full stem otherwise, and it is not a category entry.  Part 2: in a
well-formed filesystem every such file with a valid category directory,
`.rs` extension and non-excluded stem is discovered, with exactly those
fields. -/
theorem c4_directory_style_attribution :
    (∀ (fs : FS) (repo_root : Path) (config : Config) (t : TestFile)
        (cat n : String),
      t ∈ discover_rust_tests fs repo_root config →
      t.path = (repo_root ++ [config.test_root]) ++ [cat, n] →
      cat ∈ validCategories ∧ t.category = some cat ∧
        t.is_category_entry = false ∧
        t.module = some (if pyStartsWith (stemOf n) (cat ++ "_") = true
          then strDrop (stemOf n) (strLen cat + 1) else stemOf n)) ∧
    (∀ (fs : FS) (repo_root : Path) (config : Config) (cat n : String),
      fs.WF →
      ((repo_root ++ [config.test_root]) ++ [cat, n]) ∈ fs.files →
      cat ∈ validCategories → pyEndsWith n ".rs" = true →
      (pyStartsWith (stemOf n) "_" || pyStartsWith (stemOf n) "dev_") = false →
      ∃ t ∈ discover_rust_tests fs repo_root config,
        t.path = (repo_root ++ [config.test_root]) ++ [cat, n] ∧
        t.category = some cat ∧ t.is_category_entry = false ∧
        t.module = some (if pyStartsWith (stemOf n) (cat ++ "_") = true
          then strDrop (stemOf n) (strLen cat + 1) else stemOf n)) := by
  constructor
  · intro fs repo_root config t cat n ht hpA
    unfold discover_rust_tests at ht
    split_ifs at ht with hex
    · rw [mem_sortBy] at ht
      rcases List.mem_append.mp ht with h1 | h2
      · obtain ⟨pn, hpn, hf⟩ := List.mem_filterMap.mp h1
        have hp1 := (rootTestEntry?_eq_some hf).1
        obtain ⟨_, hcn, _⟩ := mem_globExt.mp hpn
        have hshape := childName?_eq_some hcn
        have hcontr : (repo_root ++ [config.test_root]) ++ [pn.2]
            = (repo_root ++ [config.test_root]) ++ [cat, n] := by
          rw [← hshape, ← hp1, hpA]
        have hce := List.append_cancel_left hcontr
        simp at hce
      · obtain ⟨category, hcm, hpe, pn, hpn, hf⟩ := mem_catDirTests.mp h2
        obtain ⟨hp1, hc, hm, hice⟩ := catDirEntry?_eq_some hf
        obtain ⟨_, hcn, _⟩ := mem_globExt.mp hpn
        have hshape := childName?_eq_some hcn
        have hcontr : (repo_root ++ [config.test_root]) ++ [category, pn.2]
            = (repo_root ++ [config.test_root]) ++ [cat, n] := by
          have h0 : ((repo_root ++ [config.test_root]) ++ [category]) ++ [pn.2]
              = (repo_root ++ [config.test_root]) ++ [cat, n] := by
            rw [← hshape, ← hp1, hpA]
          simpa [List.append_assoc] using h0
        have hce := List.append_cancel_left hcontr
        simp at hce
        obtain ⟨hceq, hneq⟩ := hce
        subst hceq
        subst hneq
        exact ⟨hcm, hc, hice, hm⟩
    · simp at ht
  · intro fs repo_root config cat n hwf htest hcat hext hskip
    have hassoc : (repo_root ++ [config.test_root]) ++ [cat, n]
        = ((repo_root ++ [config.test_root]) ++ [cat]) ++ [n] := by
      simp
    have htd : (repo_root ++ [config.test_root]) ∈ fs.dirs := by
      have h0 : ((repo_root ++ [config.test_root]) ++ [cat, n]).take
          (repo_root ++ [config.test_root]).length ∈ fs.dirs :=
        hwf.prefix_dir htest (by simp) (by simp)
      rwa [List.take_left] at h0
    have hcd : ((repo_root ++ [config.test_root]) ++ [cat]) ∈ fs.dirs := by
      have h0 : ((((repo_root ++ [config.test_root]) ++ [cat]) ++ [n])).take
          ((repo_root ++ [config.test_root]) ++ [cat]).length ∈ fs.dirs :=
        hwf.prefix_dir (by rw [← hassoc]; exact htest) (by simp) (by simp)
      rwa [List.take_left] at h0
    have htdE : fs.pathExists (repo_root ++ [config.test_root]) = true := by
      simp [FS.pathExists, htd]
    have hcdE : fs.pathExists ((repo_root ++ [config.test_root]) ++ [cat])
        = true := by
      have hcd' : repo_root ++ [config.test_root, cat] ∈ fs.dirs := by
        simpa using hcd
      simp [FS.pathExists, hcd']
    have hglob : ((repo_root ++ [config.test_root]) ++ [cat, n], n)
        ∈ globExt fs ((repo_root ++ [config.test_root]) ++ [cat]) ".rs" := by
      refine mem_globExt.mpr ⟨List.mem_append_left _ htest, ?_, hext⟩
      rw [hassoc]
      exact childName?_append _ _
    have hentry : catDirEntry? cat ((repo_root ++ [config.test_root]) ++ [cat, n], n)
        = some { path := (repo_root ++ [config.test_root]) ++ [cat, n],
                 category := some cat,
                 module := some (if pyStartsWith (stemOf n) (cat ++ "_") = true
                   then strDrop (stemOf n) (strLen cat + 1) else stemOf n),
                 language := "rust", is_category_entry := false } := by
      unfold catDirEntry?
      rw [if_neg (by rw [hskip]; exact Bool.false_ne_true)]
    refine ⟨{ path := (repo_root ++ [config.test_root]) ++ [cat, n],
              category := some cat,
              module := some (if pyStartsWith (stemOf n) (cat ++ "_") = true
                then strDrop (stemOf n) (strLen cat + 1) else stemOf n),
              language := "rust", is_category_entry := false }, ?_, rfl, rfl, rfl, rfl⟩
    unfold discover_rust_tests
    rw [if_pos htdE]
    refine mem_sortBy.mpr (List.mem_append_right _ ?_)
    exact mem_catDirTests.mpr ⟨cat, hcat, hcdE,
      ((repo_root ++ [config.test_root]) ++ [cat, n], n), hglob, hentry⟩

/-- Witness for C4 at a concrete repository with `tests/sanity/math.rs`. -/
theorem c4_directory_style_attribution_witness :
    ∃ t ∈ discover_rust_tests
        ⟨[[("tests" : String), "sanity", "math.rs"]],
          [["tests"], ["tests", "sanity"]], fun _ => none⟩ [] {},
      t.path = (([] : Path) ++ ["tests"]) ++ ["sanity", "math.rs"] ∧
      t.category = some "sanity" ∧ t.is_category_entry = false ∧
      t.module = some (if pyStartsWith (stemOf "math.rs") ("sanity" ++ "_") = true
        then strDrop (stemOf "math.rs") (strLen "sanity" + 1)
        else stemOf "math.rs") :=
  c4_directory_style_attribution.2
    ⟨[[("tests" : String), "sanity", "math.rs"]],
      [["tests"], ["tests", "sanity"]], fun _ => none⟩ [] {} "sanity" "math.rs"
    (by decide) (by decide) (by decide) (by decide) (by decide)

/-- Counting through a `filterMap`. -/
theorem countP_filterMap (f : α → Option β) (q : β → Bool) :
    ∀ l : List α, (l.filterMap f).countP q
      = l.countP (fun a => ((f a).map q).getD false) := by
  intro l
  induction l with
  | nil => rfl
  | cons a as ih =>
    cases hf : f a with
    | none => simp [List.filterMap_cons, hf, List.countP_cons, ih]
    | some b => simp [List.filterMap_cons, hf, List.countP_cons, ih]

/-- When `name` is not excluded, a primary-tier candidate contributes a
module named `name` exactly for the path `src_dir/name/mod.rs`. -/
theorem modRsEntry?_name_indicator {fs : FS} {src_dir : Path}
    {excl : List String} {name : String}
    (hexcl : is_excluded name excl = false) (p : Path) :
    ((modRsEntry? fs src_dir excl p).map (fun m => m.name == name)).getD false
      = (p == src_dir ++ [name, "mod.rs"]) := by
  by_cases hp : p = src_dir ++ [name, "mod.rs"]
  · subst hp
    unfold modRsEntry?
    rw [grandChild?_append]
    dsimp only
    rw [if_pos rfl, if_neg (by rw [hexcl]; exact Bool.false_ne_true)]
    simp
  · rw [show (p == src_dir ++ [name, "mod.rs"]) = false from
      beq_eq_false_iff_ne.mpr hp]
    cases hgc : grandChild? src_dir p with
    | none => unfold modRsEntry?; rw [hgc]; rfl
    | some dn =>
      obtain ⟨d, m'⟩ := dn
      unfold modRsEntry?
      rw [hgc]
      dsimp only
      by_cases hmod : m' = "mod.rs"
      · rw [if_pos hmod]
        by_cases hex : is_excluded d excl = true
        · rw [if_pos hex]
          rfl
        · rw [if_neg hex]
          have hdn : ¬ d = name := by
            intro hd
            apply hp
            have hsh := grandChild?_eq_some hgc
            rw [hsh, hd, hmod]
          show (d == name) = false
          exact beq_eq_false_iff_ne.mpr hdn
      · rw [if_neg hmod]
        rfl

/-- One legacy-tier step neither adds nor removes modules named `name` once
one is present, and every element it adds has a different name. -/
theorem legacyStep_name_preserved {fs : FS} {excl : List String}
    {name : String} {acc : List Module} (pn : Path × String)
    (hcount : 1 ≤ acc.countP (fun m => m.name == name)) :
    (legacyStep fs excl acc pn).countP (fun m => m.name == name)
        = acc.countP (fun m => m.name == name) ∧
      ∀ m ∈ legacyStep fs excl acc pn, m ∈ acc ∨ m.name ≠ name := by
  unfold legacyStep
  split_ifs with ha hb hc
  · exact ⟨rfl, fun m hm => Or.inl hm⟩
  · exact ⟨rfl, fun m hm => Or.inl hm⟩
  · exact ⟨rfl, fun m hm => Or.inl hm⟩
  · have hne : ¬ stemOf pn.2 = name := by
      intro heq
      apply hc
      rw [List.any_eq_true]
      obtain ⟨m, hm, hq⟩ := List.countP_pos_iff.mp (Nat.lt_of_lt_of_le Nat.zero_lt_one hcount)
      refine ⟨m, hm, ?_⟩
      rw [heq]
      exact hq
    constructor
    · rw [List.countP_append, List.countP_cons]
      simp [hne]
    · intro m hm
      rcases List.mem_append.mp hm with h | h
      · exact Or.inl h
      · right
        rw [List.mem_singleton.mp h]
        exact hne

/-- The whole legacy-tier fold preserves the count of modules named `name`
once one is present, and every module it adds has a different name. -/
theorem foldl_legacyStep_name_preserved {fs : FS} {excl : List String}
    {name : String} (cands : List (Path × String)) :
    ∀ acc : List Module, 1 ≤ acc.countP (fun m => m.name == name) →
      (cands.foldl (legacyStep fs excl) acc).countP (fun m => m.name == name)
          = acc.countP (fun m => m.name == name) ∧
        ∀ m ∈ cands.foldl (legacyStep fs excl) acc, m ∈ acc ∨ m.name ≠ name := by
  induction cands with
  | nil => intro acc _; exact ⟨rfl, fun m hm => Or.inl hm⟩
  | cons pn rest ih =>
    intro acc h
    simp only [List.foldl_cons]
    obtain ⟨hsc, hsm⟩ := legacyStep_name_preserved pn h
    have h' : 1 ≤ (legacyStep fs excl acc pn).countP (fun m => m.name == name) := by
      rw [hsc]; exact h
    obtain ⟨hc2, hm2⟩ := ih (legacyStep fs excl acc pn) h'
    refine ⟨by rw [hc2, hsc], ?_⟩
    intro m hm
    rcases hm2 m hm with h1 | h1
    · rcases hsm m h1 with h2 | h2
      · exact Or.inl h2
      · exact Or.inr h2
    · exact Or.inr h1

/-- In a duplicate-free list, the element `a` is counted exactly once. -/
theorem countP_beq_eq_one_of_nodup [BEq α] [LawfulBEq α] {l : List α}
    (hnd : l.Nodup) {a : α} (ha : a ∈ l) :
    l.countP (fun x => x == a) = 1 := by
  induction l with
  | nil => cases ha
  | cons b bs ih =>
    rw [List.countP_cons]
    rcases List.mem_cons.mp ha with heq | hmem
    · subst heq
      have hnb : a ∉ bs := (List.nodup_cons.mp hnd).1
      have h0 : bs.countP (fun x => x == a) = 0 := by
        rw [List.countP_eq_zero]
        intro x hx hbx
        exact hnb (eq_of_beq hbx ▸ hx)
      rw [h0]
      simp
    · have hnb : ¬ (b == a) = true := by
        intro hb
        exact (List.nodup_cons.mp hnd).1 ((eq_of_beq hb) ▸ hmem)
      rw [ih ((List.nodup_cons.mp hnd).2) hmem]
      simp [hnb]

/-- An absent element is counted zero times. -/
theorem countP_beq_eq_zero_of_not_mem [BEq α] [LawfulBEq α] {l : List α}
    {a : α} (ha : a ∉ l) : l.countP (fun x => x == a) = 0 := by
  rw [List.countP_eq_zero]
  intro x hx hbx
  exact ha (eq_of_beq hbx ▸ hx)

/-- C5.  When both the primary tier (`src/<name>/mod.rs`) and the legacy
flat tier (`src/<name>.rs`) are present for the same non-excluded name, the
result of `discover_rust_modules` contains exactly one module of that name,
its path is the primary-tier file, and the returned list is always sorted in
ascending order by module name. -/
theorem c5_primary_tier_wins_and_sorted :
    (∀ (fs : FS) (repo_root : Path) (config : Config),
      List.Pairwise (fun a b : Module => strLE a.name b.name = true)
        (discover_rust_modules fs repo_root config)) ∧
    (∀ (fs : FS) (repo_root : Path) (config : Config) (name : String),
      fs.WF →
      ((repo_root ++ [config.features_root]) ++ [name, "mod.rs"]) ∈ fs.files →
      ((repo_root ++ [config.features_root]) ++ [name ++ ".rs"]) ∈ fs.files →
      is_excluded name (config.rust.exclusions ++ config.exclude) = false →
      name ≠ "lib" → name ≠ "main" →
      (discover_rust_modules fs repo_root config).countP
          (fun m => m.name == name) = 1 ∧
        ∀ m ∈ discover_rust_modules fs repo_root config, m.name = name →
          m.path = (repo_root ++ [config.features_root]) ++ [name, "mod.rs"]) := by
  constructor
  · intro fs repo_root config
    unfold discover_rust_modules
    split_ifs with hex
    · exact sortBy_sorted _
        (fun a b c hab hbc => strLE_trans a.name b.name c.name hab hbc)
        (fun a b => strLE_total a.name b.name) _
    · simp
  · intro fs repo_root config name hwf hmod hleg hexcl _hlib _hmain
    have hsd : (repo_root ++ [config.features_root]) ∈ fs.dirs := by
      have h0 : (((repo_root ++ [config.features_root]) ++ [name, "mod.rs"])).take
          (repo_root ++ [config.features_root]).length ∈ fs.dirs :=
        hwf.prefix_dir hmod (by simp) (by simp)
      rwa [List.take_left] at h0
    have hsdE : fs.pathExists (repo_root ++ [config.features_root]) = true := by
      simp [FS.pathExists, hsd]
    have hpat1 : ((fs.files ++ fs.dirs).filterMap
        (modRsEntry? fs (repo_root ++ [config.features_root])
          (config.rust.exclusions ++ config.exclude))).countP
        (fun m => m.name == name) = 1 := by
      rw [countP_filterMap]
      have hfun : (fun p => ((Option.map (fun m => m.name == name)
          (modRsEntry? fs (repo_root ++ [config.features_root])
            (config.rust.exclusions ++ config.exclude) p)).getD false))
          = fun p => (p == (repo_root ++ [config.features_root]) ++ [name, "mod.rs"]) :=
        funext (modRsEntry?_name_indicator hexcl)
      rw [hfun]
      rw [List.countP_append]
      rw [countP_beq_eq_one_of_nodup hwf.1 hmod]
      rw [countP_beq_eq_zero_of_not_mem (hwf.2.2.1 _ hmod)]
    have hpat1mem : ∀ m ∈ (fs.files ++ fs.dirs).filterMap
        (modRsEntry? fs (repo_root ++ [config.features_root])
          (config.rust.exclusions ++ config.exclude)), m.name = name →
        m.path = (repo_root ++ [config.features_root]) ++ [name, "mod.rs"] := by
      intro m hm hname
      obtain ⟨p, _, hf⟩ := List.mem_filterMap.mp hm
      obtain ⟨hpath, _⟩ := modRsEntry?_eq_some hf
      rw [hpath, hname]
    obtain ⟨hfc, hfm⟩ := foldl_legacyStep_name_preserved
      (globExt fs (repo_root ++ [config.features_root]) ".rs") _
      (by rw [hpat1])
    constructor
    · unfold discover_rust_modules
      rw [if_pos hsdE]
      rw [List.Perm.countP_eq _ (sortBy_perm _ _)]
      rw [hfc, hpat1]
    · intro m hm hname
      unfold discover_rust_modules at hm
      rw [if_pos hsdE] at hm
      rw [mem_sortBy] at hm
      rcases hfm m hm with h1 | h1
      · exact hpat1mem m h1 hname
      · exact absurd hname h1

/-- Witness for C5 at a concrete repository where both tiers define
`math`. -/
theorem c5_primary_tier_wins_and_sorted_witness :
    (discover_rust_modules
        ⟨[[("src" : String), "math", "mod.rs"], ["src", "math.rs"]],
          [["src"], ["src", "math"]], fun _ => none⟩ [] {}).countP
        (fun m => m.name == "math") = 1 :=
  ((c5_primary_tier_wins_and_sorted.2
      ⟨[[("src" : String), "math", "mod.rs"], ["src", "math.rs"]],
        [["src"], ["src", "math"]], fun _ => none⟩ [] {} "math"
      (by decide) (by decide) (by decide) (by decide) (by decide)
      (by decide))).1
